import Mathlib

/-
Verification of the MJPEG stream reader and inference loop of the
Autonomous-Fleet repository (src/roboflow.py and src/testing.py; the
class ESP32MJPEGReader and the two inference loop functions are
byte-for-byte identical between the two files in every part modelled
here).

The embedding works over List Nat as the byte strings handled by the
Python code, over an explicit heap of frame buffers to speak about the
aliasing behaviour of numpy array copies, and over the rationals as the
timestamps produced by time.time.
-/

namespace ESP32

/-! ### Byte strings and Python bytes.find

A byte is modelled as a Nat carrying a value below 256; none of the
scanning logic depends on the bound, so no bound is imposed.  The two
JPEG markers searched for by roboflow.py lines 56-57 are the start of
image marker 0xFFD8 and the end of image marker 0xFFD9. -/

abbrev Byte := Nat

/-- The JPEG start of image marker bytes b:\xff\xd8 of roboflow.py line 56. -/
def SOI : List Byte := [0xff, 0xd8]

/-- The JPEG end of image marker bytes b:\xff\xd9 of roboflow.py line 57. -/
def EOI : List Byte := [0xff, 0xd9]

/-- Index of the first occurrence of pat in l, scanning left to right,
as an offset into l; none when pat occurs nowhere in l.  This is the
core of Python bytes.find. -/
def findFrom (pat : List Byte) : List Byte → Option Nat
  | [] => none
  | b :: bs =>
      if pat.isPrefixOf (b :: bs) then some 0
      else (findFrom pat bs).map (· + 1)

/-- Python clamps a negative start argument of bytes.find by adding the
length, flooring at zero.  roboflow.py line 57 passes start = -1 when the
start marker was not found. -/
def clampStart (len : Nat) (st : Int) : Nat :=
  if st < 0 then (st + len).toNat else st.toNat

/-- Python buffer.find(pat, st): the lowest index at or after the clamped
start where pat occurs in buf, or -1 when there is none
(roboflow.py lines 56-57). -/
def pyFind (buf pat : List Byte) (st : Int) : Int :=
  match findFrom pat (buf.drop (clampStart buf.length st)) with
  | some i => ((i + clampStart buf.length st : Nat) : Int)
  | none => -1

/-! ### The inner marker-scan loop (roboflow.py lines 55-71, buffer part)

The while True loop repeatedly locates a start marker and then an end
marker at or after it, slices the payload buffer[start:end+2] out and
keeps buffer[end+2:].  Each successful iteration removes at least two
bytes from the buffer, so buffer.length is a sufficient fuel bound; the
fuel argument makes the function structurally recursive and hence
evaluable by the kernel. -/

/-- One run of the inner scan loop with explicit fuel: returns the list
of extracted payloads in order and the remaining buffer. -/
def scanLoop : Nat → List Byte → List (List Byte) × List Byte
  | 0, buf => ([], buf)
  | fuel + 1, buf =>
      let start := pyFind buf SOI 0
      let e := pyFind buf EOI start
      if start = -1 ∨ e = -1 then ([], buf)
      else
        let jpeg := (buf.take (e.toNat + 2)).drop start.toNat
        let r := scanLoop fuel (buf.drop (e.toNat + 2))
        (jpeg :: r.1, r.2)

/-- The inner scan loop of roboflow.py lines 55-63 run to completion on a
buffer: every iteration that extracts a payload consumes at least the two
end marker bytes, so fuel buf.length always suffices. -/
def scanBuffer (buf : List Byte) : List (List Byte) × List Byte :=
  scanLoop buf.length buf

/-! ### Well-formed streams

A well-formed stream, in the sense of the marker extraction property, is
a sequence of segments, each consisting of marker-free garbage followed
by a payload SOI ++ body ++ EOI with a marker-free body, followed by a
trailing rest that contains no end marker (an incomplete pair waiting
for the next chunk). -/

/-- The byte string formed by garbage/body segments followed by a
trailing rest. -/
def streamBytes : List (List Byte × List Byte) → List Byte → List Byte
  | [], t => t
  | (g, b) :: rest, t => g ++ SOI ++ b ++ EOI ++ streamBytes rest t

/-- Marker-freedom hypothesis for the segments of a well-formed stream:
neither marker occurs inside the garbage or inside the body. -/
def SegsOk (segs : List (List Byte × List Byte)) : Prop :=
  ∀ p ∈ segs, findFrom SOI p.1 = none ∧ findFrom EOI p.1 = none ∧
    findFrom SOI p.2 = none ∧ findFrom EOI p.2 = none

instance : DecidablePred SegsOk := by
  intro segs
  unfold SegsOk
  infer_instance

/-! ### Lemmas about findFrom -/

theorem isPrefixOf_append_left {pat l : List Byte} (l2 : List Byte)
    (h : pat.isPrefixOf l = true) : pat.isPrefixOf (l ++ l2) = true := by
  induction pat generalizing l with
  | nil => simp [List.isPrefixOf]
  | cons a as ih =>
    cases l with
    | nil => simp [List.isPrefixOf] at h
    | cons b bs =>
      simp only [List.cons_append, List.isPrefixOf, Bool.and_eq_true] at h ⊢
      exact ⟨h.1, ih h.2⟩

theorem findFrom_cons_none {pat : List Byte} {a : Byte} {l : List Byte}
    (h : findFrom pat (a :: l) = none) :
    pat.isPrefixOf (a :: l) = false ∧ findFrom pat l = none := by
  by_cases hp : pat.isPrefixOf (a :: l)
  · simp [findFrom, hp] at h
  · simp only [findFrom, hp, if_false, Bool.false_eq_true, ite_false,
      Option.map_eq_none'] at h
    exact ⟨by simp [hp], h⟩

theorem findFrom_append_none {pat l l2 : List Byte}
    (h : findFrom pat (l ++ l2) = none) : findFrom pat l = none := by
  induction l with
  | nil =>
    cases pat <;> rfl
  | cons a bs ih =>
    rw [List.cons_append] at h
    obtain ⟨h1, h2⟩ := findFrom_cons_none h
    have hpre : pat.isPrefixOf (a :: bs) = false := by
      by_contra hc
      have : pat.isPrefixOf (a :: bs) = true := by
        cases hh : pat.isPrefixOf (a :: bs)
        · exact absurd hh hc
        · rfl
      have := isPrefixOf_append_left l2 this
      rw [List.cons_append] at this
      rw [this] at h1
      exact Bool.true_eq_false.mp h1
    simp [findFrom, hpre, ih h2]

theorem findFrom_drop_none {pat l : List Byte} (h : findFrom pat l = none) :
    ∀ s, findFrom pat (l.drop s) = none := by
  induction l with
  | nil => intro s; simp [findFrom]
  | cons a bs ih =>
    intro s
    cases s with
    | zero => simpa using h
    | succ s =>
      rw [List.drop_succ_cons]
      exact ih (findFrom_cons_none h).2 s

theorem findFrom_marker (x : Byte) (g rest : List Byte) (hx : x ≠ 0xff)
    (hg : findFrom [0xff, x] g = none) :
    findFrom [0xff, x] (g ++ 0xff :: x :: rest) = some g.length := by
  induction g with
  | nil =>
    simp [findFrom, List.isPrefixOf]
  | cons a g' ih =>
    obtain ⟨h1, h2⟩ := findFrom_cons_none hg
    have hpre : ([0xff, x].isPrefixOf (a :: (g' ++ 0xff :: x :: rest))) = false := by
      cases g' with
      | nil =>
        simp [List.isPrefixOf]
        intro _ hxf
        exact absurd hxf hx
      | cons c g'' =>
        simp [List.isPrefixOf] at h1 ⊢
        intro ha hc
        exact absurd hc (h1 ha)
    rw [List.cons_append, findFrom, hpre]
    simp [ih h2]

theorem findFrom_EOI_SOI_cons {b : List Byte} (hb : findFrom EOI b = none) :
    findFrom EOI (0xff :: 0xd8 :: b) = none := by
  simp only [EOI] at hb
  simp [findFrom, EOI, List.isPrefixOf, hb]

/-! ### Behaviour of the scan loop -/

theorem scanLoop_no_EOI {t : List Byte} (ht : findFrom EOI t = none) :
    ∀ fuel, scanLoop fuel t = ([], t) := by
  intro fuel
  cases fuel with
  | zero => rfl
  | succ fuel =>
    have he : ∀ st : Int, pyFind t EOI st = -1 := by
      intro st
      simp [pyFind, findFrom_drop_none ht]
    simp [scanLoop, he]

theorem scanLoop_step (g b rest : List Byte) (fuel : Nat)
    (hg : findFrom SOI g = none) (hb : findFrom EOI b = none) :
    scanLoop (fuel + 1) (g ++ SOI ++ b ++ EOI ++ rest) =
      ((SOI ++ b ++ EOI) :: (scanLoop fuel rest).1, (scanLoop fuel rest).2) := by
  have hsoi : findFrom SOI (g ++ SOI ++ b ++ EOI ++ rest) = some g.length := by
    have h := findFrom_marker 0xd8 g (b ++ EOI ++ rest) (by decide) (by
      simpa [SOI] using hg)
    simpa [SOI, List.append_assoc] using h
  have heoi : findFrom EOI (SOI ++ b ++ EOI ++ rest) = some (b.length + 2) := by
    have h := findFrom_marker 0xd9 (0xff :: 0xd8 :: b) rest (by decide) (by
      simpa [EOI] using findFrom_EOI_SOI_cons hb)
    have hlen : (0xff :: 0xd8 :: b).length = b.length + 2 := by
      simp [List.length_cons]
    rw [hlen] at h
    simpa [SOI, EOI, List.append_assoc] using h
  have h0 : clampStart (g ++ SOI ++ b ++ EOI ++ rest).length 0 = 0 := by
    simp [clampStart]
  have hstart : pyFind (g ++ SOI ++ b ++ EOI ++ rest) SOI 0 = (g.length : Int) := by
    simp only [pyFind, h0, List.drop_zero, hsoi, Nat.add_zero]
  have hdropg : (g ++ SOI ++ b ++ EOI ++ rest).drop g.length =
      SOI ++ b ++ EOI ++ rest := by
    simp
  have hcl : clampStart (g ++ SOI ++ b ++ EOI ++ rest).length (g.length : Int)
      = g.length := by
    unfold clampStart
    rw [if_neg (by omega)]
    simp
  have hend : pyFind (g ++ SOI ++ b ++ EOI ++ rest) EOI (g.length : Int) =
      ((b.length + 2 + g.length : Nat) : Int) := by
    simp only [pyFind, hcl, hdropg, heoi]
  have htake : (g ++ SOI ++ b ++ EOI ++ rest).take (b.length + 2 + g.length + 2) =
      g ++ SOI ++ b ++ EOI := by
    have heq : g ++ SOI ++ b ++ EOI ++ rest = (g ++ SOI ++ b ++ EOI) ++ rest := by
      simp [List.append_assoc]
    rw [heq]
    apply List.take_left'
    simp [SOI, EOI]
    omega
  have hdropped : (g ++ SOI ++ b ++ EOI).drop g.length = SOI ++ b ++ EOI := by
    simp
  have hdrop2 : (g ++ SOI ++ b ++ EOI ++ rest).drop (b.length + 2 + g.length + 2) =
      rest := by
    have heq : g ++ SOI ++ b ++ EOI ++ rest = (g ++ SOI ++ b ++ EOI) ++ rest := by
      simp [List.append_assoc]
    rw [heq]
    apply List.drop_left'
    simp [SOI, EOI]
    omega
  simp only [scanLoop]
  rw [hstart, hend]
  rw [if_neg (by omega)]
  simp only [Int.toNat_ofNat, htake, hdropped, hdrop2]

theorem scanLoop_stream (segs : List (List Byte × List Byte)) (t : List Byte)
    (fuel : Nat) (hfuel : segs.length ≤ fuel) (hsegs : SegsOk segs)
    (ht : findFrom EOI t = none) :
    scanLoop fuel (streamBytes segs t) =
      (segs.map (fun p => SOI ++ p.2 ++ EOI), t) := by
  induction segs generalizing fuel with
  | nil =>
    simpa [streamBytes] using scanLoop_no_EOI ht fuel
  | cons p rest ih =>
    obtain ⟨g, b⟩ := p
    obtain ⟨fuel, rfl⟩ : ∃ f, fuel = f + 1 := by
      cases fuel with
      | zero => simp at hfuel
      | succ f => exact ⟨f, rfl⟩
    have hp := hsegs (g, b) (by simp)
    have hrest : SegsOk rest := fun q hq => hsegs q (List.mem_cons_of_mem _ hq)
    have hfuel' : rest.length ≤ fuel := by
      simp [List.length_cons] at hfuel
      omega
    rw [streamBytes, scanLoop_step g b (streamBytes rest t) fuel hp.1 hp.2.2.2,
      ih fuel hfuel' hrest]
    simp

theorem length_le_streamBytes (segs : List (List Byte × List Byte))
    (t : List Byte) : segs.length ≤ (streamBytes segs t).length := by
  induction segs with
  | nil => simp [streamBytes]
  | cons p rest ih =>
    obtain ⟨g, b⟩ := p
    simp [streamBytes, SOI, EOI] at ih ⊢
    omega

theorem scanBuffer_stream (segs : List (List Byte × List Byte)) (t : List Byte)
    (hsegs : SegsOk segs) (ht : findFrom EOI t = none) :
    scanBuffer (streamBytes segs t) =
      (segs.map (fun p => SOI ++ p.2 ++ EOI), t) := by
  rw [scanBuffer]
  exact scanLoop_stream segs t _
    (le_trans (length_le_streamBytes segs t) le_rfl) hsegs ht

/-! ### Claim C1 -/

/-- Claim C1 (marker extraction): for a buffer made of N well-formed marker
pairs SOI ++ body ++ EOI, each preceded by marker-free garbage bytes,
followed by a trailing rest holding no end marker (an incomplete pair),
the inner scan loop of the read stream routine (roboflow.py lines 55-63,
identically testing.py lines 56-64) extracts exactly the N payloads, each
spanning its start marker through its matching end marker inclusive,
removes all consumed bytes including the garbage before each payload, and
leaves exactly the trailing rest in the buffer for the next chunk. -/
theorem marker_extraction (segs : List (List Byte × List Byte)) (t : List Byte)
    (hsegs : SegsOk segs) (ht : findFrom EOI t = none) :
    (scanBuffer (streamBytes segs t)).1 = segs.map (fun p => SOI ++ p.2 ++ EOI)
    ∧ (scanBuffer (streamBytes segs t)).1.length = segs.length
    ∧ (scanBuffer (streamBytes segs t)).2 = t := by
  rw [scanBuffer_stream segs t hsegs ht]
  simp

/-- Witness for marker_extraction: a concrete buffer holding two payloads
interleaved with garbage and ending in an incomplete pair. -/
theorem marker_extraction_witness :
    (scanBuffer (streamBytes [([1, 2], [3, 4]), ([], [5])] [0xff, 0xd8, 7])).1
        = [([1, 2], [3, 4]), ([], [5])].map
            (fun p : List Byte × List Byte => SOI ++ p.2 ++ EOI)
    ∧ (scanBuffer (streamBytes [([1, 2], [3, 4]), ([], [5])] [0xff, 0xd8, 7])).2
        = [0xff, 0xd8, 7] :=
  ⟨(marker_extraction _ _ (by decide) (by decide)).1,
   (marker_extraction _ _ (by decide) (by decide)).2.2⟩

/-! ### The chunk loop (roboflow.py lines 44-63, buffer part)

Each arriving chunk is appended to the buffer and the inner scan loop is
run; the loop body first checks the running flag and breaks out when it
is cleared (line 45).  The stall test of lines 51-53 and the decode of
lines 65-71 do not touch the buffer, so they are modelled separately (the
stall test in the stale check development, the decode in the frame slot
development). -/

/-- The chunk loop: the running flag, the current buffer, and the list of
arriving chunks; returns the payloads extracted across all chunks in
order and the final buffer. -/
def chunkLoop (running : Bool) :
    List Byte → List (List Byte) → List (List Byte) × List Byte
  | buf, [] => ([], buf)
  | buf, c :: cs =>
      if running then
        let r := scanBuffer (buf ++ c)
        let rest := chunkLoop running r.2 cs
        (r.1 ++ rest.1, rest.2)
      else ([], buf)

/-! ### Claim C2 -/

/-- Claim C2 (partial pair handling): when one well-formed payload is
split so that the start marker arrives in one chunk and the matching end
marker in a later chunk, the chunk loop of the read stream routine
(roboflow.py lines 44-63) emits no payload after the first chunk alone
and exactly the one complete payload after the second chunk, the buffer
having accumulated both chunks. -/
theorem partial_pair_handling (b1 b2 : List Byte)
    (h1 : findFrom SOI (b1 ++ b2) = none)
    (h2 : findFrom EOI (b1 ++ b2) = none) :
    chunkLoop true [] [SOI ++ b1] = ([], SOI ++ b1)
    ∧ chunkLoop true [] [SOI ++ b1, b2 ++ EOI]
        = ([SOI ++ (b1 ++ b2) ++ EOI], []) := by
  have hb1 : findFrom EOI (SOI ++ b1) = none := by
    have h := findFrom_EOI_SOI_cons (findFrom_append_none h2)
    simpa [SOI] using h
  have hscan1 : scanBuffer (SOI ++ b1) = ([], SOI ++ b1) := by
    rw [scanBuffer]
    exact scanLoop_no_EOI hb1 _
  have hscan2 : scanBuffer ((SOI ++ b1) ++ (b2 ++ EOI))
      = ([SOI ++ (b1 ++ b2) ++ EOI], []) := by
    have hs : SegsOk [([], b1 ++ b2)] := by
      intro p hp
      simp only [List.mem_singleton] at hp
      subst hp
      exact ⟨rfl, rfl, h1, h2⟩
    have h := scanBuffer_stream [([], b1 ++ b2)] [] hs rfl
    have heq : (SOI ++ b1) ++ (b2 ++ EOI) = streamBytes [([], b1 ++ b2)] [] := by
      simp [streamBytes]
    rw [heq, h]
    simp
  constructor
  · simp [chunkLoop, hscan1]
  · simp [chunkLoop, hscan1, hscan2]
    have h2' := hscan2
    simp only [List.append_assoc] at h2'
    simp [h2']

/-- Witness for partial_pair_handling: the payload FFD8 01 02 FFD9 split
after the first body byte. -/
theorem partial_pair_handling_witness :
    chunkLoop true [] [SOI ++ [1]] = ([], SOI ++ [1])
    ∧ chunkLoop true [] [SOI ++ [1], [2] ++ EOI]
        = ([SOI ++ ([1] ++ [2]) ++ EOI], []) :=
  partial_pair_handling [1] [2] (by decide) (by decide)

/-! ### The outer connection loop (roboflow.py lines 23-88)

The background loop runs while self.running is set and retries is below
max_retries = 5.  This development models the loop for a source on which
every connection attempt fails: a non-200 status increments retries and
sleeps 2 time units before the continue (lines 33-37), and each of the
three exception handlers increments retries and falls through to the
sleep of 2 time units at line 83; in either case one attempt costs one
increment and one sleep of 2.  The running flag is modelled as constant
over the run, which covers both scenarios the claims quantify over
(nobody calls stop, or stop was already observed). -/

/-- max_retries of roboflow.py line 25. -/
def maxRetries : Nat := 5

/-- The fixed backoff of roboflow.py lines 36 and 83, in time units. -/
def backoff : ℚ := 2

/-- The outer loop when every attempt fails, with explicit fuel: returns
the number of connection attempts made, the list of sleep durations, and
the final value of retries.  The loop guard is that of line 27. -/
def connectLoopAllFail (running : Bool) : Nat → Nat → Nat × List ℚ × Nat
  | 0, retries => (0, [], retries)
  | fuel + 1, retries =>
      if running && decide (retries < maxRetries) then
        let r := connectLoopAllFail running fuel (retries + 1)
        (r.1 + 1, backoff :: r.2.1, r.2.2)
      else (0, [], retries)

theorem connectLoopAllFail_run (fuel k : Nat) (hk : k ≤ maxRetries)
    (hfuel : maxRetries - k ≤ fuel) :
    connectLoopAllFail true fuel k
      = (maxRetries - k, List.replicate (maxRetries - k) backoff, maxRetries) := by
  induction fuel generalizing k with
  | zero =>
    have hk5 : k = maxRetries := by omega
    subst hk5
    simp [connectLoopAllFail]
  | succ fuel ih =>
    by_cases hlt : k < maxRetries
    · rw [connectLoopAllFail]
      rw [if_pos (by simp [hlt])]
      rw [ih (k + 1) (by omega) (by omega)]
      have h1 : maxRetries - k = (maxRetries - (k + 1)) + 1 := by omega
      rw [h1]
      simp [List.replicate_succ]
    · have hk5 : k = maxRetries := by omega
      subst hk5
      rw [connectLoopAllFail]
      rw [if_neg (by simp)]
      simp

/-! ### Claim C4 -/

/-- Claim C4 (retry budget): for a source failing on every connection
attempt, the background loop of the read stream routine makes exactly 5
connection attempts, sleeping the fixed 2 time unit backoff with each
failed attempt, and exits with retries = max_retries, which is the
terminal failure state of roboflow.py lines 85-86; the result holds for
every fuel bound of at least maxRetries iterations, so a 6th attempt is
never made. -/
theorem retry_budget (fuel : Nat) (hfuel : maxRetries ≤ fuel) :
    connectLoopAllFail true fuel 0
        = (maxRetries, List.replicate maxRetries backoff, maxRetries)
    ∧ maxRetries ≤ (connectLoopAllFail true fuel 0).2.2 := by
  have h := connectLoopAllFail_run fuel 0 (by omega) (by omega)
  simp at h
  refine ⟨by simpa using h, ?_⟩
  rw [h]

/-- Witness for retry_budget at fuel 9: five attempts, five backoff
sleeps, terminal retries value 5, and no sixth attempt. -/
theorem retry_budget_witness :
    connectLoopAllFail true 9 0
        = (maxRetries, List.replicate maxRetries backoff, maxRetries)
    ∧ maxRetries ≤ (connectLoopAllFail true 9 0).2.2 :=
  retry_budget 9 (by decide)

/-! ### Frames, the heap of pixel buffers, and the reader state

cv2.imdecode returns a fresh numpy array and numpy copy returns an
independent buffer; to speak about aliasing, frame buffers live in an
explicit heap of cells and the reader state holds a reference (a cell
index) in latest_frame.  A frame buffer itself is modelled as a list of
pixel values. -/

abbrev FrameData := List Nat

/-- The heap of allocated frame buffers; a reference is an index. -/
structure Heap where
  cells : List FrameData

/-- Allocate a fresh buffer holding v; returns the heap and the new
reference, which is distinct from every previously valid reference. -/
def Heap.alloc (h : Heap) (v : FrameData) : Heap × Nat :=
  (⟨h.cells ++ [v]⟩, h.cells.length)

/-- Read the buffer behind a reference. -/
def Heap.read (h : Heap) (r : Nat) : FrameData :=
  h.cells.getD r []

/-- Mutate the buffer behind a reference in place. -/
def Heap.write (h : Heap) (r : Nat) (v : FrameData) : Heap :=
  ⟨h.cells.set r v⟩

theorem Heap.read_alloc_new (h : Heap) (v : FrameData) :
    (h.alloc v).1.read (h.alloc v).2 = v := by
  simp [Heap.alloc, Heap.read, List.getElem?_append_right]

theorem Heap.read_alloc_old (h : Heap) (v : FrameData) {r : Nat}
    (hr : r < h.cells.length) : (h.alloc v).1.read r = h.read r := by
  simp [Heap.alloc, Heap.read, List.getElem?_append_left hr]

theorem Heap.read_write_ne (h : Heap) (v : FrameData) {r r2 : Nat}
    (hne : r2 ≠ r) : (h.write r2 v).read r = h.read r := by
  simp [Heap.write, Heap.read, List.getElem?_set_ne hne]

/-- The fields of ESP32MJPEGReader set up in __init__ (roboflow.py lines
10-15); the thread handle is None until start is called and the frame
lock is a short critical section with no observable state of its own. -/
structure ReaderState where
  url : String
  latest_frame : Option Nat
  running : Bool
  thread : Option Unit

/-- get_frame (roboflow.py lines 90-92): under the frame lock, return a
copy of the latest frame, or None when no frame was decoded yet.  The
copy allocates a fresh buffer with the same contents; the reader state is
returned unchanged, as the method only reads it.  The function is total:
it raises nothing and, the critical section being two bounded heap
operations, it does not block. -/
def get_frame (h : Heap) (s : ReaderState) : Heap × ReaderState × Option Nat :=
  match s.latest_frame with
  | none => (h, s, none)
  | some r =>
      let p := h.alloc (h.read r)
      (p.1, s, some p.2)

/-- The frame contents a consumer obtains from a get_frame result. -/
def frameValue (x : Heap × ReaderState × Option Nat) : Option FrameData :=
  x.2.2.map (fun r => x.1.read r)

/-! ### Claim C5 -/

/-- Claim C5 (no-frame state): in every reader state whose latest frame
slot is still empty, whatever the url, running flag and thread handle
(not started, connecting, or failed), get_frame returns None, leaves the
heap and the state untouched, and being a total function it neither
raises nor blocks. -/
theorem get_frame_no_frame (h : Heap) (s : ReaderState)
    (hs : s.latest_frame = none) : get_frame h s = (h, s, none) := by
  simp [get_frame, hs]

/-- Witness for get_frame_no_frame: a freshly constructed reader that was
never started. -/
theorem get_frame_no_frame_witness :
    get_frame ⟨[]⟩ ⟨"http://cam/stream", none, false, none⟩
      = (⟨[]⟩, ⟨"http://cam/stream", none, false, none⟩, none) :=
  get_frame_no_frame _ _ rfl

/-! ### Decoding a payload (roboflow.py lines 65-71)

cv2.imdecode is an external collaborator: applied to a payload it may
raise (the except branch of line 70 catches, logs and continues), return
no image (None, line 67 skips the store), or return a fresh frame, which
line 69 stores in the latest frame slot under the lock.  Its behaviour is
a parameter of the model. -/

inductive DecodeResult where
  | raised
  | noImage
  | image (f : FrameData)

/-- Processing of one extracted payload, roboflow.py lines 65-71: only a
successful decode allocates a frame and replaces latest_frame; the two
failure outcomes leave heap and state untouched, and in every case the
function returns normally - the exception is caught inside. -/
def processPayload (decode : List Byte → DecodeResult) (h : Heap)
    (s : ReaderState) (jpeg : List Byte) : Heap × ReaderState :=
  match decode jpeg with
  | DecodeResult.raised => (h, s)
  | DecodeResult.noImage => (h, s)
  | DecodeResult.image f =>
      let p := h.alloc f
      (p.1, { s with latest_frame := some p.2 })

/-- The inner scan loop of roboflow.py lines 55-71 with the decode of
each extracted payload included: identical buffer arithmetic to scanLoop,
threading the heap and reader state through processPayload. -/
def scanProcessLoop (decode : List Byte → DecodeResult) :
    Nat → Heap → ReaderState → List Byte → Heap × ReaderState × List Byte
  | 0, h, s, buf => (h, s, buf)
  | fuel + 1, h, s, buf =>
      let start := pyFind buf SOI 0
      let e := pyFind buf EOI start
      if start = -1 ∨ e = -1 then (h, s, buf)
      else
        let jpeg := (buf.take (e.toNat + 2)).drop start.toNat
        let p := processPayload decode h s jpeg
        scanProcessLoop decode fuel p.1 p.2 (buf.drop (e.toNat + 2))

/-! ### Claim C6 -/

/-- Claim C6 (copy independence): once a frame is stored in the slot,
get_frame returns a reference distinct from the stored one whose contents
equal the stored frame; mutating the returned buffer changes neither the
stored frame nor the contents any later get_frame call returns; and the
writer storing a new decoded frame (processPayload) leaves a previously
returned copy untouched. -/
theorem get_frame_copy_independent (h h' : Heap) (s : ReaderState) (r r' : Nat)
    (hs : s.latest_frame = some r) (hr : r < h.cells.length)
    (hg : get_frame h s = (h', s, some r')) :
    r' ≠ r
    ∧ h'.read r' = h.read r
    ∧ (∀ v, (h'.write r' v).read r = h.read r)
    ∧ (∀ v, frameValue (get_frame (h'.write r' v) s) = some (h.read r))
    ∧ (∀ decode jpeg,
        ((processPayload decode h' s jpeg).1).read r' = h.read r) := by
  simp only [get_frame, hs, Prod.mk.injEq, Option.some.injEq, true_and] at hg
  obtain ⟨hh, hr'⟩ := hg
  subst hh
  subst hr'
  have hne : (h.alloc (h.read r)).2 ≠ r := by
    simp [Heap.alloc]
    omega
  have hcontents : (h.alloc (h.read r)).1.read (h.alloc (h.read r)).2
      = h.read r := Heap.read_alloc_new h (h.read r)
  have hold : ∀ v : FrameData, ((h.alloc (h.read r)).1.write
      (h.alloc (h.read r)).2 v).read r = h.read r := by
    intro v
    rw [Heap.read_write_ne _ _ hne]
    exact Heap.read_alloc_old h (h.read r) hr
  have hlt : (h.alloc (h.read r)).2 < ((h.alloc (h.read r)).1).cells.length := by
    simp [Heap.alloc]
  refine ⟨hne, hcontents, hold, ?_, ?_⟩
  · intro v
    simp only [get_frame, hs, frameValue, Option.map_some']
    rw [Heap.read_alloc_new]
    exact congrArg some (hold v)
  · intro decode jpeg
    match hd : decode jpeg with
    | DecodeResult.raised =>
        simp only [processPayload, hd]
        exact hcontents
    | DecodeResult.noImage =>
        simp only [processPayload, hd]
        exact hcontents
    | DecodeResult.image f =>
        simp only [processPayload, hd]
        rw [Heap.read_alloc_old _ _ hlt]
        exact hcontents

/-- Witness for get_frame_copy_independent: one stored frame buffer with
pixels 1 2, whose copy is allocated at reference 1. -/
theorem get_frame_copy_independent_witness :
    (1 : Nat) ≠ 0
    ∧ Heap.read ⟨[[1, 2], [1, 2]]⟩ 1 = Heap.read ⟨[[1, 2]]⟩ 0
    ∧ (∀ v, (Heap.write ⟨[[1, 2], [1, 2]]⟩ 1 v).read 0 = Heap.read ⟨[[1, 2]]⟩ 0)
    ∧ (∀ v, frameValue (get_frame (Heap.write ⟨[[1, 2], [1, 2]]⟩ 1 v)
          ⟨"u", some 0, true, some ()⟩) = some (Heap.read ⟨[[1, 2]]⟩ 0))
    ∧ (∀ decode jpeg, ((processPayload decode ⟨[[1, 2], [1, 2]]⟩
          ⟨"u", some 0, true, some ()⟩ jpeg).1).read 1
            = Heap.read ⟨[[1, 2]]⟩ 0) :=
  get_frame_copy_independent ⟨[[1, 2]]⟩ ⟨[[1, 2], [1, 2]]⟩
    ⟨"u", some 0, true, some ()⟩ 0 1 rfl (by decide) rfl

/-! ### Claim C7 -/

/-- Claim C7 (decode-failure atomicity): for every extracted payload the
latest frame slot is replaced exactly when decoding yields an image; a
raised decode error or a None result leaves heap and state unchanged and
the loop returns normally; and the buffer evolution of the scan loop -
every payload removed together with the bytes before it - is identical
whatever the decode outcomes, in particular when every decode fails the
whole loop ends with heap and state untouched and the buffer drained as
usual. -/
theorem decode_failure_atomicity (decode : List Byte → DecodeResult)
    (h : Heap) (s : ReaderState) (jpeg : List Byte) :
    (decode jpeg = DecodeResult.raised ∨ decode jpeg = DecodeResult.noImage →
        processPayload decode h s jpeg = (h, s))
    ∧ (∀ f, decode jpeg = DecodeResult.image f →
        processPayload decode h s jpeg
          = ((h.alloc f).1, { s with latest_frame := some (h.alloc f).2 }))
    ∧ (∀ fuel buf,
        (scanProcessLoop decode fuel h s buf).2.2 = (scanLoop fuel buf).2)
    ∧ (∀ fuel buf,
        (∀ j, decode j = DecodeResult.raised ∨ decode j = DecodeResult.noImage) →
        scanProcessLoop decode fuel h s buf = (h, s, (scanLoop fuel buf).2)) := by
  have hfail : ∀ (h0 : Heap) (s0 : ReaderState) (j : List Byte),
      decode j = DecodeResult.raised ∨ decode j = DecodeResult.noImage →
      processPayload decode h0 s0 j = (h0, s0) := by
    intro h0 s0 j hj
    rcases hj with hj | hj <;> simp [processPayload, hj]
  have hbuf : ∀ fuel (h0 : Heap) (s0 : ReaderState) (buf : List Byte),
      (scanProcessLoop decode fuel h0 s0 buf).2.2 = (scanLoop fuel buf).2 := by
    intro fuel
    induction fuel with
    | zero => intro h0 s0 buf; rfl
    | succ fuel ih =>
      intro h0 s0 buf
      rw [scanProcessLoop, scanLoop]
      by_cases hc : pyFind buf SOI 0 = -1 ∨ pyFind buf EOI (pyFind buf SOI 0) = -1
      · rw [if_pos hc, if_pos hc]
      · rw [if_neg hc, if_neg hc]
        exact ih _ _ _
  refine ⟨hfail h s jpeg, ?_, fun fuel buf => hbuf fuel h s buf, ?_⟩
  · intro f hf
    simp [processPayload, hf]
  · intro fuel buf hall
    have hfail' : ∀ (h0 : Heap) (s0 : ReaderState) (j : List Byte),
        processPayload decode h0 s0 j = (h0, s0) :=
      fun h0 s0 j => hfail h0 s0 j (hall j)
    induction fuel generalizing h s buf with
    | zero => rfl
    | succ fuel ih =>
      rw [scanProcessLoop, scanLoop]
      by_cases hc : pyFind buf SOI 0 = -1 ∨ pyFind buf EOI (pyFind buf SOI 0) = -1
      · rw [if_pos hc, if_pos hc]
      · rw [if_neg hc, if_neg hc]
        simp only [hfail']
        exact ih _ _ _

/-- Witness for decode_failure_atomicity: an always raising decode leaves
an empty heap and an untouched reader state. -/
theorem decode_failure_atomicity_witness :
    processPayload (fun _ => DecodeResult.raised) ⟨[]⟩
        ⟨"u", none, true, none⟩ [9] = (⟨[]⟩, ⟨"u", none, true, none⟩) :=
  (decode_failure_atomicity (fun _ => DecodeResult.raised) ⟨[]⟩
    ⟨"u", none, true, none⟩ [9]).1 (Or.inl rfl)

/-! ### Claim C10 -/

/-- The variables local to the background task (roboflow.py lines 24, 41):
the accumulated byte buffer and the retry counter.  They are function
locals of the read stream routine; get_frame (lines 90-92) has no access
to them, which the system level wrapper makes explicit. -/
structure TaskLocals where
  buffer : List Byte
  retries : Nat

/-- get_frame at the level of the whole system state: the heap, the
reader fields and the background task locals.  The method body only reads
latest_frame under the lock and allocates the copy, so the reader fields
and the task locals pass through unchanged. -/
def get_frame_system (h : Heap) (s : ReaderState) (l : TaskLocals) :
    Heap × ReaderState × TaskLocals × Option Nat :=
  ((get_frame h s).1, (get_frame h s).2.1, l, (get_frame h s).2.2)

/-- The frame contents a consumer obtains from a system level get_frame
result. -/
def sysFrameValue (x : Heap × ReaderState × TaskLocals × Option Nat) :
    Option FrameData :=
  x.2.2.2.map (fun r => x.1.read r)

/-- The latest frame reference, when set, points into the heap.  This is
an invariant of the writer, which stores only freshly allocated
references. -/
def wfSlot (h : Heap) (s : ReaderState) : Bool :=
  match s.latest_frame with
  | none => true
  | some r => decide (r < h.cells.length)

/-- Claim C10 (get_frame is a pure read): get_frame leaves every piece of
reader state unchanged - the url, latest frame slot, running flag and
thread handle, and the background task byte buffer and retry counter -
so two consecutive calls with no intervening write return frames of equal
contents. -/
theorem get_frame_pure_read (h : Heap) (s : ReaderState) (l : TaskLocals)
    (hwf : wfSlot h s = true) :
    (get_frame_system h s l).2.1 = s
    ∧ (get_frame_system h s l).2.2.1 = l
    ∧ sysFrameValue (get_frame_system (get_frame_system h s l).1 s l)
        = sysFrameValue (get_frame_system h s l) := by
  match hs : s.latest_frame with
  | none =>
      refine ⟨?_, rfl, ?_⟩ <;>
        simp [get_frame_system, get_frame, hs, sysFrameValue]
  | some r =>
      have hr : r < h.cells.length := by
        rw [wfSlot, hs] at hwf
        exact of_decide_eq_true hwf
      refine ⟨by simp [get_frame_system, get_frame, hs], rfl, ?_⟩
      simp only [get_frame_system, get_frame, hs, sysFrameValue,
        Option.map_some']
      rw [Heap.read_alloc_new, Heap.read_alloc_new]
      rw [Heap.read_alloc_old h (h.read r) hr]

/-- Witness for get_frame_pure_read: one stored frame with pixels 3. -/
theorem get_frame_pure_read_witness :
    (get_frame_system ⟨[[3]]⟩ ⟨"u", some 0, true, some ()⟩ ⟨[1], 2⟩).2.1
        = ⟨"u", some 0, true, some ()⟩
    ∧ (get_frame_system ⟨[[3]]⟩ ⟨"u", some 0, true, some ()⟩ ⟨[1], 2⟩).2.2.1
        = ⟨[1], 2⟩
    ∧ sysFrameValue (get_frame_system
          (get_frame_system ⟨[[3]]⟩ ⟨"u", some 0, true, some ()⟩ ⟨[1], 2⟩).1
          ⟨"u", some 0, true, some ()⟩ ⟨[1], 2⟩)
        = sysFrameValue
            (get_frame_system ⟨[[3]]⟩ ⟨"u", some 0, true, some ()⟩ ⟨[1], 2⟩) :=
  get_frame_pure_read ⟨[[3]]⟩ ⟨"u", some 0, true, some ()⟩ ⟨[1], 2⟩ (by decide)

/-! ### Claim C9 -/

/-- stop (roboflow.py lines 94-97): clear the running flag, then join the
thread with a 5 time unit timeout when a thread handle exists, skipping
the join when start was never called.  The second component is the join
timeout used, none when no join happens; the function is total, so stop
never raises. -/
def stop (s : ReaderState) : ReaderState × Option ℚ :=
  let s' := { s with running := false }
  match s'.thread with
  | none => (s', none)
  | some _ => (s', some 5)

/-- Claim C9 (stop and cancellation): stop clears the running flag and
joins with the bounded 5 time unit grace period exactly when a thread
handle exists (so a reader that never started skips the join, and being
total stop never raises); and with the flag cleared the outer loop of the
read stream routine, whose guard checks the flag (line 27), makes no
further connection attempt, and the chunk loop, which checks the flag
each iteration (line 45), breaks at once, processing no chunk. -/
theorem stop_cancellation (s : ReaderState) :
    (stop s).1 = { s with running := false }
    ∧ (stop s).2 = (if s.thread.isSome then some 5 else none)
    ∧ (∀ fuel retries,
        connectLoopAllFail (stop s).1.running fuel retries = (0, [], retries))
    ∧ (∀ buf chunks, chunkLoop (stop s).1.running buf chunks = ([], buf)) := by
  have hrun : (stop s).1.running = false := by
    cases ht : s.thread <;> simp [stop, ht]
  have hfst : (stop s).1 = { s with running := false } := by
    cases ht : s.thread <;> simp [stop, ht]
  refine ⟨hfst, ?_, ?_, ?_⟩
  · cases ht : s.thread <;> simp [stop, ht]
  · intro fuel retries
    rw [hrun]
    cases fuel <;> simp [connectLoopAllFail]
  · intro buf chunks
    rw [hrun]
    cases chunks <;> simp [chunkLoop]

/-! ### The stall check (roboflow.py lines 48-53)

After a chunk is appended to the buffer, line 49 assigns last_data_time
the current clock and line 51 immediately compares a fresh clock reading
against it; the two reads are adjacent statements of straight line code
executed at the same instant, and the previous value of last_data_time is
overwritten before it is ever compared.  Silence of the source keeps the
loop body from running at all (the iterator blocks), so silence never
reaches this comparison. -/

/-- The timing part of one chunk loop iteration: takes the previous
last_data_time and the clock value now at which the chunk was processed;
returns the updated last_data_time and whether the staleness break of
line 53 is taken. -/
def chunkTimingStep (_lastDataTime now : ℚ) : ℚ × Bool :=
  let updated := now
  (updated, decide (now - updated > 10))

/-- The staleness break over a whole connection: arrivals is the sequence
of clock values at which chunks are processed, with arbitrarily long
silence allowed between consecutive arrivals; true when some iteration
takes the staleness break. -/
def staleBreakEver : ℚ → List ℚ → Bool
  | _, [] => false
  | last, now :: rest =>
      let st := chunkTimingStep last now
      st.2 || staleBreakEver st.1 rest

/-! ### Claim C3 -/

/-- Claim C3 (stall detection) concerns the code as written: because
last_data_time is reassigned to the current clock immediately before the
comparison, the computed gap is zero in every iteration, so the per chunk
staleness check fires in no execution whatsoever - in particular not in
the executions the claim describes, where the source delivers data and
then goes silent for more than 10 time units.  The check is dead code and
the claimed reconnect on stall never happens through it. -/
theorem stale_check_never_fires (last0 : ℚ) (arrivals : List ℚ) :
    staleBreakEver last0 arrivals = false := by
  induction arrivals generalizing last0 with
  | nil => rfl
  | cons a rest ih =>
      have h : chunkTimingStep last0 a = (a, false) := by
        simp only [chunkTimingStep, Prod.mk.injEq, true_and,
          decide_eq_false_iff_not, not_lt, gt_iff_lt]
        norm_num
      simp [staleBreakEver, h, ih]

/-! ### The inference throttling loop (roboflow.py lines 162-196)

The same throttling logic appears in testing.py lines 294-334; both read
the clock each iteration in which a frame is available, and issue an
inference call exactly when the elapsed time since the last issued call
strictly exceeds the configured interval, updating last_inference to the
current clock on each issued call. -/

/-- The configured inference interval of roboflow.py line 163, in time
units. -/
def interval : ℚ := 2

/-- The throttling loop of roboflow.py lines 173-175 iterated over the
clock values of the iterations at which a frame is available (a fixed
frame supply makes that every iteration): returns the clock values at
which inference calls are issued, in order, and the final value of
last_inference. -/
def inferRun : ℚ → List ℚ → List ℚ × ℚ
  | last, [] => ([], last)
  | last, now :: ts =>
      if now - last > interval then
        let r := inferRun now ts
        (now :: r.1, r.2)
      else inferRun last ts

/-! ### Claim C8 -/

/-- Claim C8 (inference throttling): over any run of iterations, any two
consecutive issued inference calls are separated by strictly more than
the interval (and the first call exceeds the interval from the initial
last_inference), so at most one call is issued per interval window
however many frames are displayed; the stored timestamp always equals the
time of the last issued call; and a single iteration issues a call
exactly when the elapsed time strictly exceeds the interval, updating the
timestamp exactly then. -/
theorem inference_throttling (last0 : ℚ) (ts : List ℚ) :
    List.Chain (fun a b => b - a > interval) last0 (inferRun last0 ts).1
    ∧ (inferRun last0 ts).2 = ((inferRun last0 ts).1).getLastD last0
    ∧ (∀ last now : ℚ,
        ((inferRun last [now]).1 = [now] ↔ now - last > interval)
        ∧ (inferRun last [now]).2
            = (if now - last > interval then now else last)) := by
  have hchain : ∀ (l0 : ℚ) (us : List ℚ),
      List.Chain (fun a b => b - a > interval) l0 (inferRun l0 us).1 := by
    intro l0 us
    induction us generalizing l0 with
    | nil => exact List.Chain.nil
    | cons now us ih =>
        by_cases hc : now - l0 > interval
        · simp only [inferRun, if_pos hc]
          exact List.Chain.cons hc (ih now)
        · simp only [inferRun, if_neg hc]
          exact ih l0
  have hlast : ∀ (l0 : ℚ) (us : List ℚ),
      (inferRun l0 us).2 = ((inferRun l0 us).1).getLastD l0 := by
    intro l0 us
    induction us generalizing l0 with
    | nil => rfl
    | cons now us ih =>
        by_cases hc : now - l0 > interval
        · simp only [inferRun, if_pos hc]
          rw [List.getLastD_cons]
          exact ih now
        · simp only [inferRun, if_neg hc]
          exact ih l0
  refine ⟨hchain last0 ts, hlast last0 ts, ?_⟩
  intro last now
  by_cases hc : now - last > interval
  · constructor
    · simp [inferRun, hc]
    · simp [inferRun, hc]
  · constructor
    · simp [inferRun, hc]
    · simp [inferRun, hc]

end ESP32
